import Mathlib

set_option maxRecDepth 8000

/-!
Verification development for the gpx-analyzer route pipeline.

The JavaScript source is shallowly embedded in Lean.  JavaScript numbers are
idealized as exact rationals.  The one genuinely transcendental function of the
program, haversineDistance (utils.js), cannot be expressed over the rationals;
the route-level development is therefore parametric in the segment-distance
function hav, so every theorem below holds for the actual haversine formula as
well as for any other distance function.  A faithful real-valued rendering of
haversineDistance is given at the end together with its symmetry property,
which justifies the abstraction.

Data model (README / route.js):
  track point  { lat, lon, ele, distance, gain, loss }
  waypoint     adds { name, isStart, isEnd, isCustom } (absent JS fields read
               as undefined, i.e. falsy; modelled as default false)
  route data   { points, waypoints, totalDistance, totalGain, totalLoss }
-/

structure TrackPoint where
  lat : ℚ
  lon : ℚ
  ele : ℚ
  distance : ℚ := 0
  gain : ℚ := 0
  loss : ℚ := 0
deriving Repr, DecidableEq, Inhabited

structure Waypoint where
  name : String
  lat : ℚ
  lon : ℚ
  ele : ℚ
  distance : ℚ
  gain : ℚ
  loss : ℚ
  isStart : Bool := false
  isEnd : Bool := false
  isCustom : Bool := false
deriving Repr, DecidableEq, Inhabited

/-- Raw wpt entry parsed from a GPX file (events.js parseGPX): name plus
coordinates; ele defaults to 0 when the node is missing. -/
structure GpxWaypoint where
  lat : ℚ
  lon : ℚ
  ele : ℚ
  name : String
deriving Repr, DecidableEq, Inhabited

structure RouteData where
  points : List TrackPoint
  waypoints : List Waypoint
  totalDistance : ℚ
  totalGain : ℚ
  totalLoss : ℚ
deriving Repr, DecidableEq, Inhabited

section RoutePipeline

variable (hav : ℚ → ℚ → ℚ → ℚ → ℚ)

/-- Cumulative loop shared by processRouteData, reverseRouteData and the two
truncate functions (route.js): walks the list keeping the previous raw point
and the three accumulators, overwriting distance, gain and loss on each point;
returns the processed list together with the final accumulator values. -/
def processPointsAux (prev : TrackPoint) (d g l : ℚ) :
    List TrackPoint → List TrackPoint × ℚ × ℚ × ℚ
  | [] => ([], d, g, l)
  | p :: rest =>
    let seg := hav prev.lat prev.lon p.lat p.lon
    let d2 := d + seg
    let diff := p.ele - prev.ele
    let g2 := if diff > 0 then g + diff else g
    let l2 := if diff > 0 then l else l + |diff|
    let r := processPointsAux p d2 g2 l2 rest
    ({ p with distance := d2, gain := g2, loss := l2 } :: r.1, r.2)

/-- The map in processRouteData (route.js lines 33-56): index 0 keeps the
accumulators at 0, later indices accumulate against the previous raw point. -/
def processPointsTot (trackPoints : List TrackPoint) :
    List TrackPoint × ℚ × ℚ × ℚ :=
  match trackPoints with
  | [] => ([], 0, 0, 0)
  | p :: rest =>
    let r := processPointsAux hav p 0 0 0 rest
    ({ p with distance := 0, gain := 0, loss := 0 } :: r.1, r.2)

/-- findNearestTrackPoint (utils.js / route.js): linear scan with strict
less-than against the running minimum (ties kept at first encounter); the JS
initial minDistance of Infinity is modelled by an Option accumulator. -/
def findNearestTrackPoint (trackPoints : List TrackPoint) (lat lon : ℚ) :
    TrackPoint :=
  (trackPoints.foldl
    (fun st p =>
      let d := hav lat lon p.lat p.lon
      match st.1 with
      | none => (some d, p)
      | some m => if d < m then (some d, p) else st)
    ((none : Option ℚ), trackPoints.headI)).2

/-- JS object spread waypoint construction from a track point: absent flag
fields read as falsy. -/
def waypointOfPoint (name : String) (p : TrackPoint) : Waypoint :=
  { name := name, lat := p.lat, lon := p.lon, ele := p.ele,
    distance := p.distance, gain := p.gain, loss := p.loss }

def mkStartWaypoint (p : TrackPoint) : Waypoint :=
  { waypointOfPoint "Start" p with isStart := true }

def mkEndWaypoint (p : TrackPoint) : Waypoint :=
  { waypointOfPoint "End" p with isEnd := true }

/-- Waypoint ordering used by every sort in the source: the JS comparator
(a, b) then a.distance - b.distance, i.e. stable ascending sort by distance.
The stable JS Array.prototype.sort is modelled by stable insertion sort. -/
def wpLe (a b : Waypoint) : Prop := a.distance ≤ b.distance

instance : DecidableRel wpLe := fun a b =>
  inferInstanceAs (Decidable (a.distance ≤ b.distance))

instance : IsTotal Waypoint wpLe := ⟨fun a b => le_total a.distance b.distance⟩

instance : IsTrans Waypoint wpLe := ⟨fun _ _ _ h1 h2 => le_trans h1 h2⟩

/-- Intermediate list of ensureStartEndWaypoints (route.js lines 103-122):
waypoints already flagged start or end are dropped, a Start pinned to the
first processed point is prepended (unshift) and an End pinned to the last
processed point is appended (push). -/
def ensureBaseList (waypoints : List Waypoint)
    (processedPoints : List TrackPoint) : List Waypoint :=
  mkStartWaypoint processedPoints.headI ::
    (waypoints.filter (fun wp => !wp.isStart && !wp.isEnd) ++
      [mkEndWaypoint processedPoints.getLastI])

/-- The sort by distance (route.js line 125). -/
def ensureSorted (waypoints : List Waypoint)
    (processedPoints : List TrackPoint) : List Waypoint :=
  List.insertionSort wpLe (ensureBaseList waypoints processedPoints)

/-- ensureStartEndWaypoints (route.js lines 103-134): drop waypoints already
flagged start or end, prepend a Start pinned to the first processed point,
append an End pinned to the last processed point, sort by distance and
re-assign both flags purely by sorted position (index 0 and index
length - 1). -/
def ensureStartEndWaypoints (waypoints : List Waypoint)
    (processedPoints : List TrackPoint) : List Waypoint :=
  let sorted := ensureSorted waypoints processedPoints
  sorted.mapIdx (fun i wp =>
    { wp with isStart := decide (i = 0), isEnd := decide (i = sorted.length - 1) })

/-- generateWaypoints (route.js lines 136-154): synthesized start and end
waypoints when the GPX file carries none. -/
def generateWaypoints (processedPoints : List TrackPoint) : List Waypoint :=
  [mkStartWaypoint processedPoints.headI, mkEndWaypoint processedPoints.getLastI]

/-- Snap of one GPX waypoint in processRouteData: spread of the nearest
processed point over the name. -/
def snapGpxWaypoint (processedPoints : List TrackPoint) (wp : GpxWaypoint) :
    Waypoint :=
  waypointOfPoint wp.name (findNearestTrackPoint hav processedPoints wp.lat wp.lon)

/-- processRouteData (route.js lines 27-85). -/
def processRouteData (trackPoints : List TrackPoint)
    (gpxWaypoints : List GpxWaypoint) : RouteData :=
  let r := processPointsTot hav trackPoints
  let processedPoints := r.1
  let waypoints :=
    if gpxWaypoints.length > 0 then
      gpxWaypoints.map (snapGpxWaypoint hav processedPoints)
    else
      generateWaypoints processedPoints
  { points := processedPoints,
    waypoints := ensureStartEndWaypoints waypoints processedPoints,
    totalDistance := r.2.1, totalGain := r.2.2.1, totalLoss := r.2.2.2 }

/-- reverseRouteData (route.js lines 185-227): clone and reverse the points,
zero the cumulative fields and recompute them in the new order (the in-place
reset-then-loop of the source computes exactly the shared cumulative loop on
the reversed list), and reverse the waypoint list. -/
def reverseRouteData (data : RouteData) : RouteData :=
  let r := processPointsTot hav data.points.reverse
  { points := r.1,
    waypoints := data.waypoints.reverse,
    totalDistance := r.2.1, totalGain := r.2.2.1, totalLoss := r.2.2.2 }

/-- handleReverseRoute (events.js lines 124-157): reverse, remap every
waypoint to the nearest reversed point (distance, gain, loss, ele adopted;
lat and lon kept), then re-run start and end enforcement. -/
def handleReverseRoute (data : RouteData) : RouteData :=
  let reversed := reverseRouteData hav data
  let remapped := reversed.waypoints.map (fun wp =>
    let np := findNearestTrackPoint hav reversed.points wp.lat wp.lon
    { wp with
        distance := np.distance, gain := np.gain, loss := np.loss,
        ele := np.ele })
  { reversed with
    waypoints := ensureStartEndWaypoints remapped reversed.points }

/-- Waypoint update step shared by the truncate functions: spread of the
nearest recalculated point over the waypoint (geometry fields replaced, name
and flags kept), drop waypoints outside the new distance range, sort. -/
def truncateWaypoints (recalculatedPoints : List TrackPoint)
    (waypoints : List Waypoint) : List Waypoint :=
  let remapped := waypoints.map (fun wp =>
    let np := findNearestTrackPoint hav recalculatedPoints wp.lat wp.lon
    { wp with
        lat := np.lat, lon := np.lon, ele := np.ele,
        distance := np.distance, gain := np.gain, loss := np.loss })
  let kept := remapped.filter (fun wp =>
    decide (wp.distance ≥ 0) &&
    decide (wp.distance ≤ (recalculatedPoints.getLastI).distance))
  List.insertionSort wpLe kept

/-- truncateRouteFromStart (route.js lines 229-285). -/
def truncateRouteFromStart (data : RouteData) (newStartPointIndex : ℕ) :
    RouteData :=
  let truncatedPoints := data.points.drop newStartPointIndex
  let r := processPointsTot hav truncatedPoints
  let recalculatedPoints := r.1
  let updatedWaypoints := truncateWaypoints hav recalculatedPoints data.waypoints
  { points := recalculatedPoints,
    waypoints := ensureStartEndWaypoints updatedWaypoints recalculatedPoints,
    totalDistance := r.2.1, totalGain := r.2.2.1, totalLoss := r.2.2.2 }

/-- truncateRouteFromEnd (route.js lines 287-343). -/
def truncateRouteFromEnd (data : RouteData) (newEndPointIndex : ℕ) :
    RouteData :=
  let truncatedPoints := data.points.take (newEndPointIndex + 1)
  let r := processPointsTot hav truncatedPoints
  let recalculatedPoints := r.1
  let updatedWaypoints := truncateWaypoints hav recalculatedPoints data.waypoints
  { points := recalculatedPoints,
    waypoints := ensureStartEndWaypoints updatedWaypoints recalculatedPoints,
    totalDistance := r.2.1, totalGain := r.2.2.1, totalLoss := r.2.2.2 }

/-- Post-truncation fix-up in the start branch of deleteWaypoint (events.js
lines 186-189): force the first waypoint to be the flagged, named start. -/
def setFirstWaypointStart (data : RouteData) : RouteData :=
  match data.waypoints with
  | [] => data
  | w :: ws =>
    { data with waypoints := { w with isStart := true, name := "Start" } :: ws }

/-- Post-truncation fix-up in the end branch of deleteWaypoint (events.js
lines 212-215): force the last waypoint to be the flagged, named end. -/
def setLastWaypointEnd (data : RouteData) : RouteData :=
  match data.waypoints.getLast? with
  | none => data
  | some w =>
    { data with waypoints :=
        data.waypoints.dropLast ++ [{ w with isEnd := true, name := "End" }] }

/-- deleteWaypoint (events.js lines 160-230).  The Bool is true exactly when
the operation reported the cannot-delete alert; every other path returns
false.  The 0.001 km tolerance of the source is the rational 1/1000. -/
def deleteWaypoint (data : RouteData) (index : ℕ) : RouteData × Bool :=
  match data.waypoints.get? index with
  | some waypoint =>
    if waypoint.isStart then
      if data.waypoints.length ≤ 2 then (data, true)
      else
        let newStartWaypoint := data.waypoints.getI 1
        match data.points.findIdx?
            (fun p => decide (|p.distance - newStartWaypoint.distance| < 1/1000)) with
        | some newStartPointIndex =>
          if newStartPointIndex > 0 then
            (setFirstWaypointStart (truncateRouteFromStart hav data newStartPointIndex),
              false)
          else (data, false)
        | none => (data, false)
    else if waypoint.isEnd then
      if data.waypoints.length ≤ 2 then (data, true)
      else
        let newEndWaypoint := data.waypoints.getI (data.waypoints.length - 2)
        match data.points.findIdx?
            (fun p => decide (|p.distance - newEndWaypoint.distance| < 1/1000)) with
        | some newEndPointIndex =>
          if newEndPointIndex < data.points.length - 1 then
            (setLastWaypointEnd (truncateRouteFromEnd hav data newEndPointIndex),
              false)
          else (data, false)
        | none => (data, false)
    else
      ({ data with
          waypoints :=
            ensureStartEndWaypoints (data.waypoints.eraseIdx index) data.points },
        false)
  | none =>
    ({ data with
        waypoints :=
          ensureStartEndWaypoints (data.waypoints.eraseIdx index) data.points },
      false)

/-- addWaypointFromMapClick (events.js lines 232-253). -/
def addWaypointFromMapClick (data : RouteData) (lat lon : ℚ) : RouteData :=
  let nearestPoint := findNearestTrackPoint hav data.points lat lon
  let newWaypoint := { waypointOfPoint "" nearestPoint with isCustom := true }
  { data with
    waypoints :=
      ensureStartEndWaypoints (data.waypoints ++ [newWaypoint]) data.points }

/-- addWaypointFromChartClick (events.js lines 255-285): nearest point by
absolute difference of cumulative distance, strict improvement only. -/
def addWaypointFromChartClick (data : RouteData) (distance : ℚ) : RouteData :=
  let first := data.points.headI
  let nearestPoint :=
    (data.points.foldl
      (fun st p =>
        let diff := |p.distance - distance|
        if diff < st.1 then (diff, p) else st)
      (|first.distance - distance|, first)).2
  let newWaypoint := { waypointOfPoint "" nearestPoint with isCustom := true }
  { data with
    waypoints :=
      ensureStartEndWaypoints (data.waypoints ++ [newWaypoint]) data.points }

/-- One loaded GPX file in multi-track mode (multi-gpx.js): name, raw track
points and raw GPX waypoints. -/
structure GpxFile where
  name : String
  points : List TrackPoint
  waypoints : List GpxWaypoint
deriving Repr, DecidableEq, Inhabited

/-- linkSelectedGPXFiles (multi-gpx.js lines 150-215), data part: rejects
linking a file with itself (alert, modelled as none); otherwise orients each
point sequence (reversed when the chosen connection point is the end),
concatenates points and raw waypoint lists, and reprocesses.  The connection
point selectors are the literal strings of the source. -/
def linkSelectedGPXFiles (files : List GpxFile) (file1Index : ℕ)
    (point1 : String) (file2Index : ℕ) (point2 : String) : Option RouteData :=
  if file1Index = file2Index then none
  else
    let gpxFile1 := files.getI file1Index
    let gpxFile2 := files.getI file2Index
    let startPoints1 :=
      if point1 = "start" then gpxFile1.points else gpxFile1.points.reverse
    let startPoints2 :=
      if point2 = "start" then gpxFile2.points else gpxFile2.points.reverse
    let linkedPoints := startPoints1 ++ startPoints2
    let linkedWaypoints := gpxFile1.waypoints ++ gpxFile2.waypoints
    some (processRouteData hav linkedPoints linkedWaypoints)

end RoutePipeline

/-!  Elevation resolver (elevation.js).  Before resolution a track point is a
raw parsed point whose elevation may be the null sentinel; modelled by an
Option field.  -/

/-- Raw parsed trkpt (events.js parseGPX / multi-gpx.js
parseGPXForMultiUpload): a missing ele node parses to the null sentinel. -/
structure GpxPoint where
  lat : ℚ
  lon : ℚ
  ele : Option ℚ
deriving Repr, DecidableEq, Inhabited

/-- Sampling stride of fetchElevationData (elevation.js line 320):
max(1, floor(pointCount / 100)). -/
def elevationSampleStep (pointCount : ℕ) : ℕ := max 1 (pointCount / 100)

/-- Sampled index list of fetchElevationData (elevation.js lines 318-330) for
a track of the given length: indices 0, step, 2 step, ... below pointCount,
with the last index appended when the loop did not already end on it.
Faithful for pointCount at least 1 (the function is only reached then; an
empty track is rejected earlier with the no-track-points alert). -/
def sampledIndices (pointCount : ℕ) : List ℕ :=
  let step := elevationSampleStep pointCount
  let base := (List.range ((pointCount + step - 1) / step)).map (· * step)
  if base.getLast? = some (pointCount - 1) then base else base ++ [pointCount - 1]

/-- Positional thinning used by the two last-resort sources: the JS
filter((_, i) => i % k === 0) keeps the elements at positions divisible
by k. -/
def everyNthByPosition (k : ℕ) (l : List ℕ) : List ℕ :=
  (l.enum.filter (fun p => p.1 % k == 0)).map (·.2)

/-- Reduced sample of tryFetchWithOpenTopoData (elevation.js line 207): every
2nd element of the sampled index list, by position. -/
def openTopoReducedIndices (sampled : List ℕ) : List ℕ :=
  everyNthByPosition 2 sampled

/-- Reduced sample of tryFetchPointByPoint (elevation.js line 266): every 3rd
element, by position, of the sampled index list the function receives, which
fetchElevationData passes unreduced (elevation.js line 346). -/
def pointByPointReducedIndices (sampled : List ℕ) : List ℕ :=
  everyNthByPosition 3 sampled

/-- tryFetchPointByPoint (elevation.js lines 261-314), network abstracted: the
respond oracle gives the per-request elevation outcome for a track index (none
for a timeout, HTTP failure or missing result).  Each answered index is
written into the point list and counted; the returned flag is the success
verdict successCount at least min(10, 20 percent of the reduced sample). -/
def tryFetchPointByPoint (trackPoints : List GpxPoint) (sampled : List ℕ)
    (respond : ℕ → Option ℚ) : List GpxPoint × Bool :=
  let reducedIndices := pointByPointReducedIndices sampled
  let updated := reducedIndices.foldl
    (fun pts idx =>
      match respond idx with
      | some e => pts.set idx { pts.getI idx with ele := some e }
      | none => pts)
    trackPoints
  let successCount := reducedIndices.countP (fun idx => (respond idx).isSome)
  (updated,
    decide ((successCount : ℚ) ≥ min 10 ((reducedIndices.length : ℚ) * (2/10))))

/-- Scan of interpolateElevation for prevIdx (elevation.js lines 371-372):
largest index below i whose elevation is non-null, none when the scan runs off
the front. -/
def prevNonNull (arr : List GpxPoint) : ℕ → Option ℕ
  | 0 => none
  | j + 1 => if (arr.getI j).ele.isSome then some j else prevNonNull arr j

/-- Scan of interpolateElevation for nextIdx (elevation.js lines 374-375),
walking right from a given index while inside the array; the fuel argument is
the remaining array length. -/
def nextNonNullAux (arr : List GpxPoint) : ℕ → ℕ → Option ℕ
  | 0, _ => none
  | fuel + 1, j =>
    if j < arr.length then
      if (arr.getI j).ele.isSome then some j else nextNonNullAux arr fuel (j + 1)
    else none

/-- Smallest index above i, inside the array, whose elevation is non-null. -/
def nextNonNull (arr : List GpxPoint) (i : ℕ) : Option ℕ :=
  nextNonNullAux arr (arr.length - (i + 1)) (i + 1)

/-- Value assigned by interpolateElevation at a null position, relative to a
given array state (elevation.js lines 377-388): linear interpolation between
the two neighbour scans, one-sided copy at a boundary, 0 when the whole array
is null. -/
def interpPointVal (arr : List GpxPoint) (i : ℕ) : ℚ :=
  match prevNonNull arr i, nextNonNull arr i with
  | some p, some n =>
    let prevEle := (arr.getI p).ele.getD 0
    let nextEle := (arr.getI n).ele.getD 0
    prevEle + (nextEle - prevEle) * (((i : ℚ) - (p : ℚ)) / ((n : ℚ) - (p : ℚ)))
  | some p, none => (arr.getI p).ele.getD 0
  | none, some n => (arr.getI n).ele.getD 0
  | none, none => 0

/-- One iteration of the interpolateElevation loop at index i, mutating the
current array state. -/
def interpStep (arr : List GpxPoint) (i : ℕ) : List GpxPoint :=
  if (arr.getI i).ele.isSome then arr
  else arr.set i { arr.getI i with ele := some (interpPointVal arr i) }

/-- interpolateElevation (elevation.js lines 368-391): the for loop over all
indices, each reading the array as mutated by the previous iterations. -/
def interpolateElevation (trackPoints : List GpxPoint) : List GpxPoint :=
  (List.range trackPoints.length).foldl interpStep trackPoints

/-- The specified result of interpolation, read off the claim: every point
that is still null receives the linear interpolation between its nearest
resolved neighbours in the incoming array (copy at a boundary, 0 when
neither side is resolved); resolved points are untouched. -/
def interpolateElevationSpec (trackPoints : List GpxPoint) : List GpxPoint :=
  (List.range trackPoints.length).map (fun i =>
    let p := trackPoints.getI i
    if p.ele.isSome then p else { p with ele := some (interpPointVal trackPoints i) })

/-- Flat-profile fallback of fetchElevationData (elevation.js lines 354-361):
every still-null elevation becomes 0. -/
def flatProfileFill (trackPoints : List GpxPoint) : List GpxPoint :=
  trackPoints.map (fun p => if p.ele = none then { p with ele := some 0 } else p)

/-- Tail of fetchElevationData (elevation.js lines 334-365) after the source
chain ran: the sources only fill elevations of sampled points, so their
combined effect is abstracted as the point-list state they leave behind
together with the overall success flag; on failure the flat profile fills the
nulls, on success the interpolation pass runs. -/
def fetchElevationDataResult (ptsAfterSources : List GpxPoint)
    (success : Bool) : List GpxPoint :=
  if success then interpolateElevation ptsAfterSources
  else flatProfileFill ptsAfterSources

/-- The hasElevation flag of parseGPX (events.js lines 27-40) and
parseGPXForMultiUpload (multi-gpx.js lines 10-23): set when any parsed point
carries an elevation that is neither null nor 0. -/
def hasElevationFlag (trackPoints : List GpxPoint) : Bool :=
  trackPoints.any (fun p => p.ele ≠ none && p.ele ≠ some 0)

/-- Elevation phase of parseGPX (events.js lines 20-54) and of
parseGPXForMultiUpload (multi-gpx.js lines 3-35): an empty track is rejected
(none); otherwise fetchElevationData runs only when hasElevation is false,
and the resulting list is what processRouteData (or the multi-upload store)
receives.  ptsAfterSources and success abstract the network-dependent source
chain as in fetchElevationDataResult. -/
def parseGPXResolvedPoints (trackPoints : List GpxPoint)
    (ptsAfterSources : List GpxPoint) (success : Bool) :
    Option (List GpxPoint) :=
  if trackPoints.length = 0 then none
  else if hasElevationFlag trackPoints then some trackPoints
  else some (fetchElevationDataResult ptsAfterSources success)

/-!  Supporting lemmas: the cumulative loop is determined by, and preserves,
the coordinate content (lat, lon, ele) of the points.  -/

/-- Coordinate content of a track point, the only data the cumulative loop
reads. -/
def coordOf (p : TrackPoint) : ℚ × ℚ × ℚ := (p.lat, p.lon, p.ele)

/-- The start and end invariant of the specification on a waypoint list:
exactly one waypoint is flagged start, exactly one is flagged end, the start
waypoint has minimal distance and the end waypoint maximal distance. -/
def waypointInvariant (wps : List Waypoint) : Prop :=
  wps.countP (·.isStart) = 1 ∧ wps.countP (·.isEnd) = 1 ∧
  (∀ s ∈ wps, s.isStart = true → ∀ w ∈ wps, s.distance ≤ w.distance) ∧
  (∀ e ∈ wps, e.isEnd = true → ∀ w ∈ wps, w.distance ≤ e.distance)

instance (wps : List Waypoint) : Decidable (waypointInvariant wps) := by
  unfold waypointInvariant; infer_instance

/-- The enforcement step exactly as the claim words it: existing isStart and
isEnd FLAGS are stripped while the carrying waypoints are KEPT, then Start is
prepended, End appended, the list sorted by distance, and flags re-assigned
by sorted position. -/
def ensureStartEndWaypointsClaimSpec (waypoints : List Waypoint)
    (processedPoints : List TrackPoint) : List Waypoint :=
  let stripped := waypoints.map (fun wp => { wp with isStart := false, isEnd := false })
  let withStartEnd :=
    mkStartWaypoint processedPoints.headI ::
      (stripped ++ [mkEndWaypoint processedPoints.getLastI])
  let sorted := List.insertionSort wpLe withStartEnd
  sorted.mapIdx (fun i wp =>
    { wp with isStart := decide (i = 0), isEnd := decide (i = sorted.length - 1) })

/-- The enforcement step as amended: waypoints carrying an isStart or isEnd
flag are REMOVED from the list (not kept with stripped flags); then Start is
prepended, End appended, the list sorted by distance ascending, and both
flags re-assigned purely by sorted position. -/
def ensureStartEndWaypointsAmendedSpec (waypoints : List Waypoint)
    (processedPoints : List TrackPoint) : List Waypoint :=
  let kept := waypoints.filter (fun wp => decide (wp.isStart = false ∧ wp.isEnd = false))
  let withStartEnd :=
    [mkStartWaypoint processedPoints.headI] ++ kept ++
      [mkEndWaypoint processedPoints.getLastI]
  let sorted := List.insertionSort wpLe withStartEnd
  sorted.mapIdx (fun i wp =>
    { wp with isStart := decide (i = 0), isEnd := decide (i = sorted.length - 1) })

/-!  Concrete inputs used by the witnesses below.  -/

/-- Degenerate distance function used to instantiate the parametric pipeline
in witnesses. -/
def havZero : ℚ → ℚ → ℚ → ℚ → ℚ := fun _ _ _ _ => 0

def tpOrigin : TrackPoint := TrackPoint.mk 0 0 0 0 0 0

def wpStartW : Waypoint := Waypoint.mk "Start" 0 0 0 0 0 0 true false false

def wpMidW : Waypoint := Waypoint.mk "M" 0 0 0 0 0 0 false false true

def wpEndW : Waypoint := Waypoint.mk "End" 0 0 0 0 0 0 false true false

/-- A processed route with the minimum two waypoints. -/
def routeTwoWp : RouteData := RouteData.mk [tpOrigin] [wpStartW, wpEndW] 0 0 0

/-- A processed route with three waypoints, all snapped to the single point. -/
def routeThreeWp : RouteData :=
  RouteData.mk [tpOrigin] [wpStartW, wpMidW, wpEndW] 0 0 0

def fileA : GpxFile := GpxFile.mk "a" [TrackPoint.mk 1 2 3 0 0 0] []

def fileB : GpxFile := GpxFile.mk "b" [TrackPoint.mk 4 5 6 0 0 0] []

/-- The value of the specification at one index (body of the map in
interpolateElevationSpec). -/
def interpSpecAt (arr : List GpxPoint) (i : ℕ) : GpxPoint :=
  if (arr.getI i).ele.isSome then arr.getI i
  else { arr.getI i with ele := some (interpPointVal arr i) }

/-- The reduced sample the claim describes for the point-by-point source:
every 3rd element of the every-2nd reduced sample of the previous
(OpenTopoData) source. -/
def pointByPointClaimIndices (sampled : List ℕ) : List ℕ :=
  everyNthByPosition 3 (openTopoReducedIndices sampled)

/-- A parsed track mixing a non-zero elevation with a missing one. -/
def mixedElevationTrack : List GpxPoint :=
  [GpxPoint.mk 0 0 (some 5), GpxPoint.mk 0 0 none]

/-!  The real haversine (utils.js lines 108-123), given over the reals to
justify abstracting the distance function: the route-level theorems above
hold for every distance function, and the actual one is well defined and
symmetric.  -/

/-- Math.atan2 semantics by quadrant. -/
noncomputable def atan2 (y x : ℝ) : ℝ :=
  if x > 0 then Real.arctan (y / x)
  else if x < 0 ∧ y ≥ 0 then Real.arctan (y / x) + Real.pi
  else if x < 0 ∧ y < 0 then Real.arctan (y / x) - Real.pi
  else if x = 0 ∧ y > 0 then Real.pi / 2
  else if x = 0 ∧ y < 0 then -(Real.pi / 2)
  else 0

/-- toRad (utils.js line 121). -/
noncomputable def toRadReal (degrees : ℝ) : ℝ := degrees * (Real.pi / 180)

/-- haversineDistance (utils.js lines 108-119), Earth radius 6371 km. -/
noncomputable def haversineDistanceReal (lat1 lon1 lat2 lon2 : ℝ) : ℝ :=
  let dLat := toRadReal (lat2 - lat1)
  let dLon := toRadReal (lon2 - lon1)
  let a := Real.sin (dLat / 2) * Real.sin (dLat / 2) +
    Real.cos (toRadReal lat1) * Real.cos (toRadReal lat2) *
      Real.sin (dLon / 2) * Real.sin (dLon / 2)
  let c := 2 * atan2 (Real.sqrt a) (Real.sqrt (1 - a))
  6371 * c

theorem coordOf_update (p : TrackPoint) (d g l : ℚ) :
    coordOf { p with distance := d, gain := g, loss := l } = coordOf p := rfl

theorem update_eq_of_coordOf_eq {p q : TrackPoint} (h : coordOf p = coordOf q)
    (d g l : ℚ) :
    ({ p with distance := d, gain := g, loss := l } : TrackPoint) =
      { q with distance := d, gain := g, loss := l } := by
  have h1 : p.lat = q.lat := congrArg Prod.fst h
  have h2 : p.lon = q.lon := congrArg (Prod.fst ∘ Prod.snd) h
  have h3 : p.ele = q.ele := congrArg (Prod.snd ∘ Prod.snd) h
  rw [TrackPoint.mk.injEq]
  exact ⟨h1, h2, h3, rfl, rfl, rfl⟩

theorem processPointsAux_map_coordOf (hav : ℚ → ℚ → ℚ → ℚ → ℚ)
    (prev : TrackPoint) (d g l : ℚ) (pts : List TrackPoint) :
    (processPointsAux hav prev d g l pts).1.map coordOf = pts.map coordOf := by
  induction pts generalizing prev d g l with
  | nil => rfl
  | cons p rest ih =>
    simp only [processPointsAux, List.map_cons, coordOf_update, List.cons.injEq]
    exact ⟨trivial, ih ..⟩

theorem processPointsTot_map_coordOf (hav : ℚ → ℚ → ℚ → ℚ → ℚ)
    (pts : List TrackPoint) :
    (processPointsTot hav pts).1.map coordOf = pts.map coordOf := by
  cases pts with
  | nil => rfl
  | cons p rest =>
    simp only [processPointsTot, List.map_cons, coordOf_update, List.cons.injEq]
    exact ⟨trivial, processPointsAux_map_coordOf ..⟩

theorem processPointsAux_congr (hav : ℚ → ℚ → ℚ → ℚ → ℚ)
    {prev1 prev2 : TrackPoint} (hprev : coordOf prev1 = coordOf prev2)
    (d g l : ℚ) {pts1 pts2 : List TrackPoint}
    (hpts : pts1.map coordOf = pts2.map coordOf) :
    processPointsAux hav prev1 d g l pts1 = processPointsAux hav prev2 d g l pts2 := by
  induction pts1 generalizing prev1 prev2 d g l pts2 with
  | nil =>
    cases pts2 with
    | nil => rfl
    | cons q qs => simp at hpts
  | cons p ps ih =>
    cases pts2 with
    | nil => simp at hpts
    | cons q qs =>
      simp only [List.map_cons, List.cons.injEq] at hpts
      obtain ⟨hpq, hrest⟩ := hpts
      have hlat : p.lat = q.lat := congrArg Prod.fst hpq
      have hlon : p.lon = q.lon := congrArg (Prod.fst ∘ Prod.snd) hpq
      have hele : p.ele = q.ele := congrArg (Prod.snd ∘ Prod.snd) hpq
      have hplat : prev1.lat = prev2.lat := congrArg Prod.fst hprev
      have hplon : prev1.lon = prev2.lon := congrArg (Prod.fst ∘ Prod.snd) hprev
      have hpele : prev1.ele = prev2.ele := congrArg (Prod.snd ∘ Prod.snd) hprev
      simp only [processPointsAux]
      rw [hlat, hlon, hele, hplat, hplon, hpele, ih hpq _ _ _ hrest]

theorem processPointsTot_congr (hav : ℚ → ℚ → ℚ → ℚ → ℚ)
    {pts1 pts2 : List TrackPoint} (hpts : pts1.map coordOf = pts2.map coordOf) :
    processPointsTot hav pts1 = processPointsTot hav pts2 := by
  cases pts1 with
  | nil =>
    cases pts2 with
    | nil => rfl
    | cons q qs => simp at hpts
  | cons p ps =>
    cases pts2 with
    | nil => simp at hpts
    | cons q qs =>
      simp only [List.map_cons, List.cons.injEq] at hpts
      obtain ⟨hpq, hrest⟩ := hpts
      have hlat : p.lat = q.lat := congrArg Prod.fst hpq
      have hlon : p.lon = q.lon := congrArg (Prod.fst ∘ Prod.snd) hpq
      have hele : p.ele = q.ele := congrArg (Prod.snd ∘ Prod.snd) hpq
      simp only [processPointsTot]
      rw [hlat, hlon, hele, processPointsAux_congr hav hpq 0 0 0 hrest]

theorem reverseRouteData_points (hav : ℚ → ℚ → ℚ → ℚ → ℚ) (r : RouteData) :
    (reverseRouteData hav r).points = (processPointsTot hav r.points.reverse).1 := rfl

theorem handleReverseRoute_points (hav : ℚ → ℚ → ℚ → ℚ → ℚ) (r : RouteData) :
    (handleReverseRoute hav r).points = (reverseRouteData hav r).points := rfl

/-- Reversing twice recomputes the cumulative loop over a list with the
original coordinate content. -/
theorem reverse_reverse_processPointsTot (hav : ℚ → ℚ → ℚ → ℚ → ℚ)
    (tp : List TrackPoint) (r : RouteData)
    (hr : r.points = (processPointsTot hav tp).1) :
    processPointsTot hav
        ((processPointsTot hav r.points.reverse).1.reverse) =
      processPointsTot hav tp := by
  apply processPointsTot_congr
  calc (processPointsTot hav r.points.reverse).1.reverse.map coordOf
      = ((processPointsTot hav r.points.reverse).1.map coordOf).reverse := by
        rw [List.map_reverse]
    _ = (r.points.reverse.map coordOf).reverse := by
        rw [processPointsTot_map_coordOf]
    _ = r.points.map coordOf := by
        rw [List.map_reverse, List.reverse_reverse]
    _ = tp.map coordOf := by rw [hr, processPointsTot_map_coordOf]

/-- C5.  For every route produced by the route processor, applying the
reverse operation twice (both the pure reverseRouteData and the full
handleReverseRoute pipeline) reproduces the original point list exactly, and
the resulting totalDistance, totalGain and totalLoss equal the original
values; in exact arithmetic the tolerance is equality, and gain and loss come
back unswapped. -/
theorem reverse_twice_restores_route (hav : ℚ → ℚ → ℚ → ℚ → ℚ)
    (tp : List TrackPoint) (gw : List GpxWaypoint) :
    ((reverseRouteData hav (reverseRouteData hav
        (processRouteData hav tp gw))).points =
      (processRouteData hav tp gw).points ∧
    (reverseRouteData hav (reverseRouteData hav
        (processRouteData hav tp gw))).totalDistance =
      (processRouteData hav tp gw).totalDistance ∧
    (reverseRouteData hav (reverseRouteData hav
        (processRouteData hav tp gw))).totalGain =
      (processRouteData hav tp gw).totalGain ∧
    (reverseRouteData hav (reverseRouteData hav
        (processRouteData hav tp gw))).totalLoss =
      (processRouteData hav tp gw).totalLoss) ∧
    ((handleReverseRoute hav (handleReverseRoute hav
        (processRouteData hav tp gw))).points =
      (processRouteData hav tp gw).points ∧
    (handleReverseRoute hav (handleReverseRoute hav
        (processRouteData hav tp gw))).totalDistance =
      (processRouteData hav tp gw).totalDistance ∧
    (handleReverseRoute hav (handleReverseRoute hav
        (processRouteData hav tp gw))).totalGain =
      (processRouteData hav tp gw).totalGain ∧
    (handleReverseRoute hav (handleReverseRoute hav
        (processRouteData hav tp gw))).totalLoss =
      (processRouteData hav tp gw).totalLoss) := by
  set r := processRouteData hav tp gw with hrdef
  have hrpts : r.points = (processPointsTot hav tp).1 := by
    rw [hrdef]; rfl
  have hrtot : (r.totalDistance, r.totalGain, r.totalLoss) =
      ((processPointsTot hav tp).2.1, (processPointsTot hav tp).2.2.1,
        (processPointsTot hav tp).2.2.2) := by
    rw [hrdef]; rfl
  have key1 : processPointsTot hav
      ((processPointsTot hav r.points.reverse).1.reverse) =
      processPointsTot hav tp := reverse_reverse_processPointsTot hav tp r hrpts
  have hrev1 : (reverseRouteData hav r).points =
      (processPointsTot hav r.points.reverse).1 := rfl
  have hbase : ∀ s : RouteData,
      s.points = (reverseRouteData hav r).points →
      (reverseRouteData hav s).points = r.points ∧
      (reverseRouteData hav s).totalDistance = r.totalDistance ∧
      (reverseRouteData hav s).totalGain = r.totalGain ∧
      (reverseRouteData hav s).totalLoss = r.totalLoss := by
    intro s hs
    have hsp : (reverseRouteData hav s).points =
        (processPointsTot hav s.points.reverse).1 := rfl
    have heq : processPointsTot hav s.points.reverse = processPointsTot hav tp := by
      rw [hs, hrev1]; exact key1
    refine ⟨?_, ?_, ?_, ?_⟩
    · rw [hsp, heq, hrpts]
    · show (processPointsTot hav s.points.reverse).2.1 = r.totalDistance
      rw [heq]; exact (congrArg Prod.fst hrtot).symm
    · show (processPointsTot hav s.points.reverse).2.2.1 = r.totalGain
      rw [heq]; exact (congrArg (Prod.fst ∘ Prod.snd) hrtot).symm
    · show (processPointsTot hav s.points.reverse).2.2.2 = r.totalLoss
      rw [heq]; exact (congrArg (Prod.snd ∘ Prod.snd) hrtot).symm
  constructor
  · exact hbase (reverseRouteData hav r) rfl
  · have h1 : (handleReverseRoute hav r).points = (reverseRouteData hav r).points := rfl
    have h2 := hbase (handleReverseRoute hav r) h1
    have h3 : (handleReverseRoute hav (handleReverseRoute hav r)).points =
        (reverseRouteData hav (handleReverseRoute hav r)).points := rfl
    have h4 : ∀ s : RouteData,
        (handleReverseRoute hav s).totalDistance = (reverseRouteData hav s).totalDistance ∧
        (handleReverseRoute hav s).totalGain = (reverseRouteData hav s).totalGain ∧
        (handleReverseRoute hav s).totalLoss = (reverseRouteData hav s).totalLoss :=
      fun s => ⟨rfl, rfl, rfl⟩
    obtain ⟨hp, hd, hg, hl⟩ := h2
    obtain ⟨td, tg, tl⟩ := h4 (handleReverseRoute hav r)
    exact ⟨h3.trans hp, td.trans hd, tg.trans hg, tl.trans hl⟩

/-!  Supporting lemmas for the start and end waypoint invariant.  -/

theorem countP_eq_one_of_unique_index {α} (p : α → Bool) :
    ∀ (l : List α) (i : ℕ) (hi : i < l.length), p l[i] = true →
      (∀ j (hj : j < l.length), p l[j] = true → j = i) →
      l.countP p = 1
  | [], i, hi, _, _ => absurd hi (by simp)
  | a :: t, 0, hi, hp, huniq => by
    have ht : t.countP p = 0 := by
      rw [List.countP_eq_zero]
      intro x hx
      obtain ⟨j, hj, rfl⟩ := List.mem_iff_getElem.mp hx
      intro hpx
      have : j + 1 = 0 := huniq (j + 1) (by simpa using Nat.succ_lt_succ hj)
        (by simpa using hpx)
      exact absurd this (by omega)
    have hpa : p a = true := by simpa using hp
    rw [List.countP_cons, ht, hpa]
    simp
  | a :: t, i + 1, hi, hp, huniq => by
    have hpa : ¬ p a = true := by
      intro hpa
      have : 0 = i + 1 := huniq 0 (by simp) (by simpa using hpa)
      exact absurd this (by omega)
    have hti : i < t.length := by simpa using Nat.lt_of_succ_lt_succ hi
    have ht : t.countP p = 1 := by
      apply countP_eq_one_of_unique_index p t i hti (by simpa using hp)
      intro j hj hpj
      have : j + 1 = i + 1 := huniq (j + 1) (by simpa using Nat.succ_lt_succ hj)
        (by simpa using hpj)
      omega
    rw [List.countP_cons, ht, if_neg hpa]

theorem ensureStartEndWaypoints_length (wps : List Waypoint)
    (pts : List TrackPoint) :
    (ensureStartEndWaypoints wps pts).length = (ensureSorted wps pts).length :=
  List.length_mapIdx

theorem ensureSorted_length_pos (wps : List Waypoint) (pts : List TrackPoint) :
    1 ≤ (ensureSorted wps pts).length := by
  have h := (List.perm_insertionSort wpLe (ensureBaseList wps pts)).length_eq
  unfold ensureSorted
  rw [h]
  unfold ensureBaseList
  simp

theorem ensureSorted_sorted (wps : List Waypoint) (pts : List TrackPoint) :
    List.Sorted wpLe (ensureSorted wps pts) :=
  List.sorted_insertionSort wpLe (ensureBaseList wps pts)

theorem ensureStartEndWaypoints_getElem (wps : List Waypoint)
    (pts : List TrackPoint) (i : ℕ)
    (hi : i < (ensureSorted wps pts).length)
    (hi2 : i < (ensureStartEndWaypoints wps pts).length) :
    (ensureStartEndWaypoints wps pts)[i] =
      { (ensureSorted wps pts)[i] with
          isStart := decide (i = 0),
          isEnd := decide (i = (ensureSorted wps pts).length - 1) } := by
  simp [ensureStartEndWaypoints, List.getElem_mapIdx]

theorem ensureStartEndWaypoints_invariant (wps : List Waypoint)
    (pts : List TrackPoint) :
    waypointInvariant (ensureStartEndWaypoints wps pts) := by
  set s := ensureSorted wps pts with hs
  have hlen1 : 1 ≤ s.length := ensureSorted_length_pos wps pts
  have hrlen : (ensureStartEndWaypoints wps pts).length = s.length :=
    ensureStartEndWaypoints_length wps pts
  have hget : ∀ i (hi : i < (ensureStartEndWaypoints wps pts).length)
      (hi2 : i < s.length),
      (ensureStartEndWaypoints wps pts)[i] =
        { s[i] with
            isStart := decide (i = 0),
            isEnd := decide (i = s.length - 1) } := by
    intro i hi hi2
    exact ensureStartEndWaypoints_getElem wps pts i hi2 hi
  have hsorted : ∀ i j (hi : i < s.length) (hj : j < s.length), i ≤ j →
      s[i].distance ≤ s[j].distance := by
    intro i j hi hj hij
    rcases Nat.lt_or_ge i j with hlt | hge
    · have := List.pairwise_iff_getElem.mp (ensureSorted_sorted wps pts) i j hi hj hlt
      simpa [wpLe] using this
    · have : i = j := le_antisymm hij hge
      subst this
      rfl
  refine ⟨?_, ?_, ?_, ?_⟩
  · apply countP_eq_one_of_unique_index _ _ 0 (by omega)
    · rw [hget 0 (by omega) (by omega)]
      simp
    · intro j hj hpj
      rw [hget j hj (by omega)] at hpj
      simpa using hpj
  · apply countP_eq_one_of_unique_index _ _ (s.length - 1) (by omega)
    · rw [hget (s.length - 1) (by omega) (by omega)]
      simp
    · intro j hj hpj
      rw [hget j hj (by omega)] at hpj
      simpa using hpj
  · intro st hst hstart w hw
    obtain ⟨i, hi, hi2⟩ := List.mem_iff_getElem.mp hst
    obtain ⟨j, hj, hj2⟩ := List.mem_iff_getElem.mp hw
    have hieq : i = 0 := by
      have hgi := hget i hi (by omega)
      rw [hi2] at hgi
      have hflag := congrArg Waypoint.isStart hgi
      rw [hstart] at hflag
      simpa using hflag.symm
    subst hieq
    have hs0 : (0 : ℕ) < s.length := by omega
    have hsj : j < s.length := by omega
    have h1 : st.distance = s[0].distance := by
      rw [← hi2, hget 0 hi hs0]
    have h2 : w.distance = s[j].distance := by
      rw [← hj2, hget j hj hsj]
    rw [h1, h2]
    exact hsorted 0 j hs0 hsj (by omega)
  · intro en hen hend w hw
    obtain ⟨i, hi, hi2⟩ := List.mem_iff_getElem.mp hen
    obtain ⟨j, hj, hj2⟩ := List.mem_iff_getElem.mp hw
    have hieq : i = s.length - 1 := by
      have hgi := hget i hi (by omega)
      rw [hi2] at hgi
      have hflag := congrArg Waypoint.isEnd hgi
      rw [hend] at hflag
      simpa using hflag.symm
    subst hieq
    have hsl : s.length - 1 < s.length := by omega
    have hsj : j < s.length := by omega
    have h1 : en.distance = s[s.length - 1].distance := by
      rw [← hi2, hget (s.length - 1) hi hsl]
    have h2 : w.distance = s[j].distance := by
      rw [← hj2, hget j hj hsj]
    rw [h1, h2]
    exact hsorted j (s.length - 1) hsj hsl (by omega)

theorem countP_congr_pointwise {α β} (p : α → Bool) (q : β → Bool) :
    ∀ (l1 : List α) (l2 : List β), l1.length = l2.length →
      (∀ i (h1 : i < l1.length) (h2 : i < l2.length), p l1[i] = q l2[i]) →
      l1.countP p = l2.countP q
  | [], [], _, _ => by simp
  | [], b :: t2, hlen, _ => by simp at hlen
  | a :: t1, [], hlen, _ => by simp at hlen
  | a :: t1, b :: t2, hlen, hpt => by
    have h0 : p a = q b := by simpa using hpt 0 (by simp) (by simp)
    have ht : t1.countP p = t2.countP q := by
      apply countP_congr_pointwise p q t1 t2 (by simpa using hlen)
      intro i h1 h2
      simpa using hpt (i + 1) (by simpa using Nat.succ_lt_succ h1)
        (by simpa using Nat.succ_lt_succ h2)
    rw [List.countP_cons, List.countP_cons, h0, ht]

theorem waypointInvariant_congr {l1 l2 : List Waypoint}
    (hlen : l1.length = l2.length)
    (hpt : ∀ i (h1 : i < l1.length) (h2 : i < l2.length),
      l1[i].isStart = l2[i].isStart ∧ l1[i].isEnd = l2[i].isEnd ∧
      l1[i].distance = l2[i].distance) :
    waypointInvariant l1 → waypointInvariant l2 := by
  intro ⟨hc1, hc2, hmin, hmax⟩
  refine ⟨?_, ?_, ?_, ?_⟩
  · rw [← hc1]
    apply (countP_congr_pointwise _ _ l2 l1 hlen.symm _).symm.symm
    intro i h1 h2
    exact ((hpt i h2 h1).1).symm
  · rw [← hc2]
    apply (countP_congr_pointwise _ _ l2 l1 hlen.symm _).symm.symm
    intro i h1 h2
    exact ((hpt i h2 h1).2.1).symm
  · intro st hst hstart w hw
    obtain ⟨i, hi, hi2⟩ := List.mem_iff_getElem.mp hst
    obtain ⟨j, hj, hj2⟩ := List.mem_iff_getElem.mp hw
    have hi1 : i < l1.length := by omega
    have hj1 : j < l1.length := by omega
    obtain ⟨hsf, _, hsd⟩ := hpt i hi1 hi
    obtain ⟨_, _, hwd⟩ := hpt j hj1 hj
    have := hmin l1[i] (List.getElem_mem hi1) (by rw [hsf, hi2, hstart])
      l1[j] (List.getElem_mem hj1)
    rw [hsd, hwd, hi2, hj2] at this
    exact this
  · intro en hen hend w hw
    obtain ⟨i, hi, hi2⟩ := List.mem_iff_getElem.mp hen
    obtain ⟨j, hj, hj2⟩ := List.mem_iff_getElem.mp hw
    have hi1 : i < l1.length := by omega
    have hj1 : j < l1.length := by omega
    obtain ⟨_, hse, hsd⟩ := hpt i hi1 hi
    obtain ⟨_, _, hwd⟩ := hpt j hj1 hj
    have := hmax l1[i] (List.getElem_mem hi1) (by rw [hse, hi2, hend])
      l1[j] (List.getElem_mem hj1)
    rw [hsd, hwd, hi2, hj2] at this
    exact this

theorem ensureStartEndWaypoints_length_pos (wps : List Waypoint)
    (pts : List TrackPoint) :
    0 < (ensureStartEndWaypoints wps pts).length := by
  rw [ensureStartEndWaypoints_length]
  exact ensureSorted_length_pos wps pts

theorem ensureStartEndWaypoints_head_isStart (wps : List Waypoint)
    (pts : List TrackPoint) (h : 0 < (ensureStartEndWaypoints wps pts).length) :
    (ensureStartEndWaypoints wps pts)[0].isStart = true := by
  have hs : 0 < (ensureSorted wps pts).length := ensureSorted_length_pos wps pts
  rw [ensureStartEndWaypoints_getElem wps pts 0 hs h]
  simp

theorem ensureStartEndWaypoints_getElem_isEnd (wps : List Waypoint)
    (pts : List TrackPoint) (i : ℕ)
    (h : i < (ensureStartEndWaypoints wps pts).length)
    (heq : i = (ensureStartEndWaypoints wps pts).length - 1) :
    (ensureStartEndWaypoints wps pts)[i].isEnd = true := by
  have hlen := ensureStartEndWaypoints_length wps pts
  have hs : i < (ensureSorted wps pts).length := by omega
  rw [ensureStartEndWaypoints_getElem wps pts _ hs h]
  have h2 : i = (ensureSorted wps pts).length - 1 := by omega
  simp [h2]

theorem setFirstWaypointStart_waypoints_inv (R : RouteData)
    (wps : List Waypoint) (pts : List TrackPoint)
    (hR : R.waypoints = ensureStartEndWaypoints wps pts) :
    waypointInvariant (setFirstWaypointStart R).waypoints := by
  have hlen : 0 < R.waypoints.length := by
    rw [hR]; exact ensureStartEndWaypoints_length_pos wps pts
  have hhead0 : R.waypoints[0].isStart = true := by
    rw [List.getElem_of_eq hR hlen]
    exact ensureStartEndWaypoints_head_isStart wps pts (hR ▸ hlen)
  have hinv : waypointInvariant R.waypoints := by
    rw [hR]; exact ensureStartEndWaypoints_invariant wps pts
  cases hwl : R.waypoints with
  | nil => rw [hwl] at hlen; simp at hlen
  | cons w ws =>
    have hw0 : w.isStart = true := by
      have h3 := List.getElem_of_eq hwl hlen
      rw [h3] at hhead0
      simpa using hhead0
    have hinv2 : waypointInvariant (w :: ws) := by rw [← hwl]; exact hinv
    have hres : (setFirstWaypointStart R).waypoints =
        { w with isStart := true, name := "Start" } :: ws := by
      unfold setFirstWaypointStart
      rw [hwl]
    rw [hres]
    refine waypointInvariant_congr (by simp) ?_ hinv2
    intro i h1 h2
    cases i with
    | zero => exact ⟨by simpa using hw0.symm, rfl, rfl⟩
    | succ k => exact ⟨rfl, rfl, rfl⟩

theorem setLastWaypointEnd_waypoints_inv (R : RouteData)
    (wps : List Waypoint) (pts : List TrackPoint)
    (hR : R.waypoints = ensureStartEndWaypoints wps pts) :
    waypointInvariant (setLastWaypointEnd R).waypoints := by
  have hlen : 0 < R.waypoints.length := by
    rw [hR]; exact ensureStartEndWaypoints_length_pos wps pts
  have hlast : R.waypoints[R.waypoints.length - 1].isEnd = true := by
    have hi : R.waypoints.length - 1 < R.waypoints.length := by omega
    rw [List.getElem_of_eq hR hi]
    exact ensureStartEndWaypoints_getElem_isEnd wps pts _ (hR ▸ hi) (by rw [hR])
  have hinv : waypointInvariant R.waypoints := by
    rw [hR]; exact ensureStartEndWaypoints_invariant wps pts
  cases hwl : R.waypoints.getLast? with
  | none =>
    rw [List.getLast?_eq_none_iff] at hwl
    rw [hwl] at hlen; simp at hlen
  | some w =>
    have hres : (setLastWaypointEnd R).waypoints =
        R.waypoints.dropLast ++ [{ w with isEnd := true, name := "End" }] := by
      unfold setLastWaypointEnd
      rw [hwl]
    have hwlast : R.waypoints[R.waypoints.length - 1] = w := by
      have := List.getLast?_eq_getElem? R.waypoints
      rw [hwl] at this
      have h3 := this.symm
      rw [List.getElem?_eq_getElem (by omega)] at h3
      simpa using h3
    rw [hres]
    have hlen2 : (R.waypoints.dropLast ++
        [{ w with isEnd := true, name := "End" }]).length = R.waypoints.length := by
      simp [List.length_dropLast]
      omega
    refine waypointInvariant_congr (by omega) ?_ hinv
    intro i h1 h2
    rcases Nat.lt_or_ge i (R.waypoints.length - 1) with hilt | hige
    · have hid : i < R.waypoints.dropLast.length := by
        simp [List.length_dropLast]; omega
      rw [List.getElem_append_left hid]
      rw [List.getElem_dropLast]
      exact ⟨rfl, rfl, rfl⟩
    · have hieq : i = R.waypoints.length - 1 := by omega
      subst hieq
      have hid : R.waypoints.dropLast.length ≤ R.waypoints.length - 1 := by
        simp [List.length_dropLast]
      rw [List.getElem_append_right hid]
      have : R.waypoints.length - 1 - R.waypoints.dropLast.length = 0 := by
        simp [List.length_dropLast]
      simp only [this]
      rw [hwlast]
      refine ⟨rfl, ?_, rfl⟩
      rw [hwlast] at hlast
      simpa using hlast

theorem deleteWaypoint_invariant (hav : ℚ → ℚ → ℚ → ℚ → ℚ) (r : RouteData)
    (index : ℕ) (hinv : waypointInvariant r.waypoints) :
    waypointInvariant ((deleteWaypoint hav r index).1).waypoints := by
  unfold deleteWaypoint
  cases hw : r.waypoints.get? index with
  | none =>
    simp only []
    exact ensureStartEndWaypoints_invariant _ _
  | some waypoint =>
    simp only []
    by_cases hstart : waypoint.isStart
    · simp only [if_pos hstart]
      by_cases hlen : r.waypoints.length ≤ 2
      · simp only [if_pos hlen]
        exact hinv
      · simp only [if_neg hlen]
        cases hf : r.points.findIdx? (fun p =>
            decide (|p.distance - (r.waypoints.getI 1).distance| < 1/1000)) with
        | none => exact hinv
        | some newStartPointIndex =>
          simp only []
          by_cases hpos : newStartPointIndex > 0
          · simp only [if_pos hpos]
            exact setFirstWaypointStart_waypoints_inv _ _ _ rfl
          · simp only [if_neg hpos]
            exact hinv
    · simp only [if_neg hstart]
      by_cases hend : waypoint.isEnd
      · simp only [if_pos hend]
        by_cases hlen : r.waypoints.length ≤ 2
        · simp only [if_pos hlen]
          exact hinv
        · simp only [if_neg hlen]
          cases hf : r.points.findIdx? (fun p =>
              decide (|p.distance -
                (r.waypoints.getI (r.waypoints.length - 2)).distance| < 1/1000)) with
          | none => exact hinv
          | some newEndPointIndex =>
            simp only []
            by_cases hlt : newEndPointIndex < r.points.length - 1
            · simp only [if_pos hlt]
              exact setLastWaypointEnd_waypoints_inv _ _ _ rfl
            · simp only [if_neg hlt]
              exact hinv
      · simp only [if_neg hend]
        exact ensureStartEndWaypoints_invariant _ _

/-- C2.  Every route produced by the route processor or by a mutation keeps
the start and end invariant on its waypoint list: exactly one waypoint is
flagged isStart, exactly one is flagged isEnd, and these carry respectively
the minimal and maximal distance of the waypoint list.  The operations are
processRouteData, handleReverseRoute, the two truncations, the two custom
waypoint insertions, and deleteWaypoint (for deleteWaypoint on a route whose
waypoint list already satisfies the invariant, since some of its guard
branches return the route unchanged). -/
theorem route_operations_waypoint_invariant (hav : ℚ → ℚ → ℚ → ℚ → ℚ)
    (tp : List TrackPoint) (gw : List GpxWaypoint) (r1 r2 r3 r4 r5 r6 : RouteData)
    (i3 i4 index : ℕ) (lat lon dist : ℚ)
    (hinv : waypointInvariant r6.waypoints) :
    waypointInvariant (processRouteData hav tp gw).waypoints ∧
    waypointInvariant (handleReverseRoute hav r1).waypoints ∧
    waypointInvariant (truncateRouteFromStart hav r3 i3).waypoints ∧
    waypointInvariant (truncateRouteFromEnd hav r4 i4).waypoints ∧
    waypointInvariant (addWaypointFromMapClick hav r2 lat lon).waypoints ∧
    waypointInvariant (addWaypointFromChartClick r5 dist).waypoints ∧
    waypointInvariant ((deleteWaypoint hav r6 index).1).waypoints := by
  refine ⟨?_, ?_, ?_, ?_, ?_, ?_, ?_⟩
  · exact ensureStartEndWaypoints_invariant _ _
  · exact ensureStartEndWaypoints_invariant _ _
  · exact ensureStartEndWaypoints_invariant _ _
  · exact ensureStartEndWaypoints_invariant _ _
  · exact ensureStartEndWaypoints_invariant _ _
  · exact ensureStartEndWaypoints_invariant _ _
  · exact deleteWaypoint_invariant hav r6 index hinv

/-- Witness for C2 at a concrete one-point route with a three-waypoint list
satisfying the invariant. -/
theorem route_operations_waypoint_invariant_witness :
    waypointInvariant
      (RouteData.mk [TrackPoint.mk 0 0 0 0 0 0]
        [Waypoint.mk "Start" 0 0 0 0 0 0 true false false,
          Waypoint.mk "M" 0 0 0 0 0 0 false false true,
          Waypoint.mk "End" 0 0 0 0 0 0 false true false] 0 0 0).waypoints ∧
    waypointInvariant (processRouteData (fun _ _ _ _ => 0)
      [TrackPoint.mk 0 0 0 0 0 0] []).waypoints := by
  constructor
  · decide
  · exact (route_operations_waypoint_invariant (fun _ _ _ _ => 0)
      [TrackPoint.mk 0 0 0 0 0 0] []
      (RouteData.mk [] [] 0 0 0) (RouteData.mk [] [] 0 0 0)
      (RouteData.mk [] [] 0 0 0) (RouteData.mk [] [] 0 0 0)
      (RouteData.mk [] [] 0 0 0)
      (RouteData.mk [TrackPoint.mk 0 0 0 0 0 0]
        [Waypoint.mk "Start" 0 0 0 0 0 0 true false false,
          Waypoint.mk "M" 0 0 0 0 0 0 false false true,
          Waypoint.mk "End" 0 0 0 0 0 0 false true false] 0 0 0)
      0 0 0 0 0 0 (by decide)).1

/-!  C3: the enforcement step, claim wording versus source.  -/

/-- C3 counterexample.  On a one-point track with one incoming waypoint that
carries the isStart flag, the source drops the waypoint (2 result entries)
while the claim keeps it with stripped flags (3 result entries), so the step
list of the claim does not describe ensureStartEndWaypoints. -/
theorem ensureStartEndWaypoints_claim_counterexample :
    ensureStartEndWaypoints
        [Waypoint.mk "Foo" 0 0 0 5 0 0 true false false]
        [TrackPoint.mk 0 0 0 0 0 0] ≠
      ensureStartEndWaypointsClaimSpec
        [Waypoint.mk "Foo" 0 0 0 5 0 0 true false false]
        [TrackPoint.mk 0 0 0 0 0 0] := by
  decide

/-- C3 amended.  With strip-and-keep replaced by remove, the claimed step
list is exactly what ensureStartEndWaypoints computes, on every input. -/
theorem ensureStartEndWaypoints_eq_amendedSpec (wps : List Waypoint)
    (pts : List TrackPoint) :
    ensureStartEndWaypoints wps pts = ensureStartEndWaypointsAmendedSpec wps pts := by
  have hfil : wps.filter (fun wp => !wp.isStart && !wp.isEnd) =
      wps.filter (fun wp => decide (wp.isStart = false ∧ wp.isEnd = false)) := by
    apply List.filter_congr
    intro w _
    cases hw1 : w.isStart <;> cases hw2 : w.isEnd <;> simp [hw1, hw2]
  unfold ensureStartEndWaypointsAmendedSpec ensureStartEndWaypoints
    ensureSorted ensureBaseList
  rw [hfil]
  rfl

/-!  C4: the elevation sampling.  -/

/-- C4 counterexample.  At a track of 150 points the stride of the source is
max(1, floor(150 / 100)) = 1, not ceil(150 / 100) = 2, and the sample has 150
elements, more than 100. -/
theorem sampledIndices_claim_counterexample :
    ¬ ((sampledIndices 150).length ≤ 100) ∧
      elevationSampleStep 150 ≠ (150 + 100 - 1) / 100 := by
  constructor
  · intro h
    have : (sampledIndices 150).length = 150 := by decide
    omega
  · decide

theorem sampledIndices_base_mem (n : ℕ) (hn : 1 ≤ n) (i : ℕ) :
    i ∈ (List.range ((n + elevationSampleStep n - 1) / elevationSampleStep n)).map
        (· * elevationSampleStep n) ↔
      ∃ k, k * elevationSampleStep n < n ∧ i = k * elevationSampleStep n := by
  have hstep : 1 ≤ elevationSampleStep n := le_max_left 1 _
  constructor
  · intro h
    simp only [List.mem_map, List.mem_range] at h
    obtain ⟨k, hk, hki⟩ := h
    refine ⟨k, ?_, hki.symm⟩
    have h2 : k + 1 ≤ (n + elevationSampleStep n - 1) / elevationSampleStep n := hk
    have h3 : (k + 1) * elevationSampleStep n ≤ n + elevationSampleStep n - 1 :=
      (Nat.le_div_iff_mul_le (by omega)).mp h2
    have h4 : (k + 1) * elevationSampleStep n =
        k * elevationSampleStep n + elevationSampleStep n := by ring
    rw [h4] at h3
    generalize hA : k * elevationSampleStep n = A at h3 ⊢
    omega
  · rintro ⟨k, hk, hik⟩
    subst hik
    simp only [List.mem_map, List.mem_range]
    refine ⟨k, ?_, rfl⟩
    rw [Nat.lt_iff_add_one_le]
    rw [Nat.le_div_iff_mul_le (by omega)]
    have h4 : (k + 1) * elevationSampleStep n =
        k * elevationSampleStep n + elevationSampleStep n := by ring
    rw [h4]
    generalize hA : k * elevationSampleStep n = A at hk ⊢
    omega

/-- C4 amended.  The stride is max(1, floor(pointCount / 100)) (floor, not
ceiling, so for 100 < pointCount < 200 every point is sampled and the sample
can exceed 100 entries); the sample consists exactly of the multiples of the
stride below pointCount, plus the last index, which is always included. -/
theorem sampledIndices_amended (n : ℕ) (hn : 1 ≤ n) :
    elevationSampleStep n = max 1 (n / 100) ∧
    (n - 1) ∈ sampledIndices n ∧
    (∀ i ∈ sampledIndices n, i < n) ∧
    (∀ i ∈ sampledIndices n, elevationSampleStep n ∣ i ∨ i = n - 1) ∧
    (∀ k : ℕ, k * elevationSampleStep n < n →
      k * elevationSampleStep n ∈ sampledIndices n) := by
  have hstep : 1 ≤ elevationSampleStep n := le_max_left 1 _
  refine ⟨rfl, ?_, ?_, ?_, ?_⟩
  · simp only [sampledIndices]
    split
    · next hlast => exact List.mem_of_getLast?_eq_some hlast
    · next hlast => simp
  · intro i hi
    simp only [sampledIndices] at hi
    split at hi
    · obtain ⟨k, hk, rfl⟩ := (sampledIndices_base_mem n hn i).mp hi
      exact hk
    · rcases List.mem_append.mp hi with h | h
      · obtain ⟨k, hk, rfl⟩ := (sampledIndices_base_mem n hn i).mp h
        exact hk
      · simp at h
        omega
  · intro i hi
    simp only [sampledIndices] at hi
    split at hi
    · obtain ⟨k, hk, rfl⟩ := (sampledIndices_base_mem n hn i).mp hi
      exact Or.inl (dvd_mul_left _ _)
    · rcases List.mem_append.mp hi with h | h
      · obtain ⟨k, hk, rfl⟩ := (sampledIndices_base_mem n hn i).mp h
        exact Or.inl (dvd_mul_left _ _)
      · simp at h
        exact Or.inr h
  · intro k hk
    have hmem : k * elevationSampleStep n ∈
        (List.range ((n + elevationSampleStep n - 1) / elevationSampleStep n)).map
          (· * elevationSampleStep n) :=
      (sampledIndices_base_mem n hn _).mpr ⟨k, hk, rfl⟩
    simp only [sampledIndices]
    split
    · exact hmem
    · exact List.mem_append.mpr (Or.inl hmem)

/-- Witness for C4 amended at pointCount 5. -/
theorem sampledIndices_amended_witness :
    1 ≤ 5 ∧
      (elevationSampleStep 5 = max 1 (5 / 100) ∧
      (5 - 1) ∈ sampledIndices 5 ∧
      (∀ i ∈ sampledIndices 5, i < 5) ∧
      (∀ i ∈ sampledIndices 5, elevationSampleStep 5 ∣ i ∨ i = 5 - 1) ∧
      (∀ k : ℕ, k * elevationSampleStep 5 < 5 →
        k * elevationSampleStep 5 ∈ sampledIndices 5)) :=
  ⟨by decide, sampledIndices_amended 5 (by decide)⟩

/-!  C6: linking two tracks end-to-start.  -/

theorem processPointsTot_length (hav : ℚ → ℚ → ℚ → ℚ → ℚ)
    (l : List TrackPoint) : (processPointsTot hav l).1.length = l.length := by
  have := congrArg List.length (processPointsTot_map_coordOf hav l)
  simpa using this

theorem processRouteData_points_def (hav : ℚ → ℚ → ℚ → ℚ → ℚ)
    (tp : List TrackPoint) (gw : List GpxWaypoint) :
    (processRouteData hav tp gw).points = (processPointsTot hav tp).1 := rfl

/-- C6.  Linking two distinct loaded tracks with connection points end and
start produces exactly the route processed from track1 reversed followed by
track2, over the two raw waypoint lists concatenated unchanged; the resulting
point count is the sum of the two track lengths and the first resulting point
carries the coordinates of the last point of track1. -/
theorem linkSelectedGPXFiles_end_start (hav : ℚ → ℚ → ℚ → ℚ → ℚ)
    (files : List GpxFile) (i1 i2 : ℕ)
    (hne : i1 ≠ i2) (hA : (files.getI i1).points ≠ []) :
    linkSelectedGPXFiles hav files i1 "end" i2 "start" =
      some (processRouteData hav
        ((files.getI i1).points.reverse ++ (files.getI i2).points)
        ((files.getI i1).waypoints ++ (files.getI i2).waypoints)) ∧
    (processRouteData hav
        ((files.getI i1).points.reverse ++ (files.getI i2).points)
        ((files.getI i1).waypoints ++ (files.getI i2).waypoints)).points.length =
      (files.getI i1).points.length + (files.getI i2).points.length ∧
    (processRouteData hav
        ((files.getI i1).points.reverse ++ (files.getI i2).points)
        ((files.getI i1).waypoints ++ (files.getI i2).waypoints)).points.head?.map
          coordOf =
      ((files.getI i1).points.getLast?).map coordOf := by
  refine ⟨?_, ?_, ?_⟩
  · simp only [linkSelectedGPXFiles]
    rw [if_neg hne]
    rw [if_neg (show ¬ ("end" : String) = "start" by decide)]
    simp
  · rw [processRouteData_points_def, processPointsTot_length]
    simp
  · have hmap := processPointsTot_map_coordOf hav
      ((files.getI i1).points.reverse ++ (files.getI i2).points)
    have h1 := congrArg List.head? hmap
    rw [List.head?_map, List.head?_map] at h1
    rw [processRouteData_points_def, h1]
    rw [List.head?_append, List.head?_reverse]
    obtain ⟨a, ha⟩ : ∃ a, (files.getI i1).points.getLast? = some a := by
      cases h : (files.getI i1).points.getLast? with
      | none => exact absurd (List.getLast?_eq_none_iff.mp h) hA
      | some a => exact ⟨a, rfl⟩
    rw [ha]
    rfl

/-- Witness for C6 on two concrete one-point files. -/
theorem linkSelectedGPXFiles_end_start_witness :
    ((0 : ℕ) ≠ 1) ∧ ([fileA, fileB].getI 0).points ≠ [] ∧
    linkSelectedGPXFiles havZero [fileA, fileB] 0 "end" 1 "start" =
      some (processRouteData havZero
        (([fileA, fileB].getI 0).points.reverse ++ ([fileA, fileB].getI 1).points)
        (([fileA, fileB].getI 0).waypoints ++ ([fileA, fileB].getI 1).waypoints)) :=
  ⟨by decide, by decide,
    (linkSelectedGPXFiles_end_start havZero [fileA, fileB] 0 1
      (by decide) (by decide)).1⟩

/-!  C9 and C10: the deleteWaypoint guards.  -/

/-- C9.  Deleting the start or the end waypoint of a route whose waypoint
list has at most 2 entries reports the cannot-delete alert and returns the
route completely unchanged (points and waypoints). -/
theorem deleteWaypoint_min_count_guard (hav : ℚ → ℚ → ℚ → ℚ → ℚ)
    (r : RouteData) (index : ℕ) (w : Waypoint)
    (hw : r.waypoints.get? index = some w)
    (hflag : w.isStart = true ∨ w.isEnd = true)
    (hlen : r.waypoints.length ≤ 2) :
    deleteWaypoint hav r index = (r, true) := by
  unfold deleteWaypoint
  rw [hw]
  rcases hflag with hs | he
  · simp [hs, hlen]
  · by_cases hs : w.isStart
    · simp [hs, hlen]
    · simp [hs, he, hlen]

/-- Witness for C9 on a concrete two-waypoint route. -/
theorem deleteWaypoint_min_count_guard_witness :
    (routeTwoWp.waypoints.get? 0 = some wpStartW) ∧
    (wpStartW.isStart = true ∨ wpStartW.isEnd = true) ∧
    (routeTwoWp.waypoints.length ≤ 2) ∧
    deleteWaypoint havZero routeTwoWp 0 = (routeTwoWp, true) :=
  ⟨by decide, by decide, by decide,
    deleteWaypoint_min_count_guard havZero routeTwoWp 0 wpStartW
      (by decide) (by decide) (by decide)⟩

/-- C10.  Deleting the start waypoint of a route with at least 3 waypoints
silently leaves the route unchanged and reports no error whenever no point at
a positive index matches the next waypoint within the 0.001 km tolerance (in
particular when the next waypoint snapped to the first point, making the
matching index 0): the truncation guard newStartPointIndex greater than 0
fails and the branch falls through without mutation or alert. -/
theorem deleteWaypoint_start_snap_noop (hav : ℚ → ℚ → ℚ → ℚ → ℚ)
    (r : RouteData) (index : ℕ) (w : Waypoint)
    (hw : r.waypoints.get? index = some w)
    (hstart : w.isStart = true)
    (hlen : 3 ≤ r.waypoints.length)
    (hnomatch : ∀ i (hi : i < r.points.length), 0 < i →
      ¬ (|r.points[i].distance - (r.waypoints.getI 1).distance| < 1/1000)) :
    deleteWaypoint hav r index = (r, false) := by
  unfold deleteWaypoint
  rw [hw]
  have hlen2 : ¬ (r.waypoints.length ≤ 2) := by omega
  simp only [hstart, if_true, if_neg hlen2]
  cases hf : r.points.findIdx?
      (fun p => decide (|p.distance - (r.waypoints.getI 1).distance| < 1/1000)) with
  | none => simp [hf]
  | some j =>
    obtain ⟨hjlen, hpj, _⟩ := List.findIdx?_eq_some_iff_getElem.mp hf
    have hj0 : j = 0 := by
      by_contra hne
      have hj : 0 < j := Nat.pos_of_ne_zero hne
      rw [decide_eq_true_iff] at hpj
      exact hnomatch j hjlen hj hpj
    subst hj0
    simp [hf]

/-- Witness for C10 on a concrete one-point route with 3 coincident
waypoints: the only matching point index is 0, so nothing happens and no
error is raised. -/
theorem deleteWaypoint_start_snap_noop_witness :
    (routeThreeWp.waypoints.get? 0 = some wpStartW) ∧
    (wpStartW.isStart = true) ∧
    (3 ≤ routeThreeWp.waypoints.length) ∧
    deleteWaypoint havZero routeThreeWp 0 = (routeThreeWp, false) :=
  ⟨by decide, by decide, by decide,
    deleteWaypoint_start_snap_noop havZero routeThreeWp 0 wpStartW
      (by decide) (by decide) (by decide)
      (by
        intro i hi hpos
        simp only [routeThreeWp] at hi
        simp at hi
        omega)⟩

/-!  C7: the interpolation pass equals its specification.  Basic facts about
the two neighbour scans and list updates.  -/

theorem prevNonNull_spec (arr : List GpxPoint) :
    ∀ i p, prevNonNull arr i = some p →
      p < i ∧ (arr.getI p).ele.isSome = true
  | 0, p, h => by simp [prevNonNull] at h
  | j + 1, p, h => by
    by_cases hj : (arr.getI j).ele.isSome
    · simp [prevNonNull, hj] at h
      subst h
      exact ⟨Nat.lt_succ_self j, hj⟩
    · simp [prevNonNull, hj] at h
      obtain ⟨hlt, hs⟩ := prevNonNull_spec arr j p h
      exact ⟨Nat.lt_succ_of_lt hlt, hs⟩

theorem nextNonNullAux_spec (arr : List GpxPoint) :
    ∀ fuel j m, nextNonNullAux arr fuel j = some m →
      j ≤ m ∧ m < arr.length ∧ (arr.getI m).ele.isSome = true
  | 0, j, m, h => by simp [nextNonNullAux] at h
  | fuel + 1, j, m, h => by
    by_cases hj : j < arr.length
    · by_cases hs : (arr.getI j).ele.isSome
      · simp [nextNonNullAux, hj, hs] at h
        subst h
        exact ⟨le_refl _, hj, hs⟩
      · simp [nextNonNullAux, hj, hs] at h
        obtain ⟨h1, h2, h3⟩ := nextNonNullAux_spec arr fuel (j + 1) m h
        exact ⟨by omega, h2, h3⟩
    · simp [nextNonNullAux, hj] at h

theorem nextNonNull_spec (arr : List GpxPoint) (i m : ℕ)
    (h : nextNonNull arr i = some m) :
    i < m ∧ m < arr.length ∧ (arr.getI m).ele.isSome = true := by
  obtain ⟨h1, h2, h3⟩ := nextNonNullAux_spec arr _ _ _ h
  exact ⟨by omega, h2, h3⟩

/-- The right scan from one position earlier skips a null entry. -/
theorem nextNonNull_skip (arr : List GpxPoint) (i : ℕ)
    (hnull : (arr.getI (i + 1)).ele.isSome = false) :
    nextNonNull arr i = nextNonNull arr (i + 1) := by
  unfold nextNonNull
  by_cases hi : i + 1 < arr.length
  · have hfuel : arr.length - (i + 1) = (arr.length - (i + 2)) + 1 := by omega
    rw [hfuel]
    simp [nextNonNullAux, hi, hnull]
  · have h1 : arr.length - (i + 1) = 0 := by omega
    have h2 : arr.length - (i + 2) = 0 := by omega
    rw [h1, h2]
    simp [nextNonNullAux]

/-- The right scans of two arrays that agree in length and from a position
onward agree. -/
theorem nextNonNullAux_congr (arr1 arr2 : List GpxPoint)
    (hlen : arr1.length = arr2.length)
    (j0 : ℕ) (hagree : ∀ j, j0 ≤ j → arr1.getI j = arr2.getI j) :
    ∀ fuel j, j0 ≤ j → nextNonNullAux arr1 fuel j = nextNonNullAux arr2 fuel j
  | 0, j, _ => by simp [nextNonNullAux]
  | fuel + 1, j, hj => by
    by_cases hjl : j < arr1.length
    · have hjl2 : j < arr2.length := by omega
      rw [show nextNonNullAux arr1 (fuel + 1) j =
          (if (arr1.getI j).ele.isSome then some j
            else nextNonNullAux arr1 fuel (j + 1)) by
          simp [nextNonNullAux, hjl]]
      rw [show nextNonNullAux arr2 (fuel + 1) j =
          (if (arr2.getI j).ele.isSome then some j
            else nextNonNullAux arr2 fuel (j + 1)) by
          simp [nextNonNullAux, hjl2]]
      rw [hagree j hj]
      by_cases hs : (arr2.getI j).ele.isSome
      · simp [hs]
      · simp [hs]
        exact nextNonNullAux_congr arr1 arr2 hlen j0 hagree fuel (j + 1) (by omega)
    · have hjl2 : ¬ j < arr2.length := by omega
      simp [nextNonNullAux, hjl, hjl2]

theorem getI_set_self (l : List GpxPoint) (i : ℕ) (a : GpxPoint)
    (h : i < l.length) : (l.set i a).getI i = a := by
  rw [List.getI_eq_getElem _ (by simpa using h)]
  exact List.getElem_set_self _

theorem getI_set_ne (l : List GpxPoint) (i j : ℕ) (a : GpxPoint)
    (hne : i ≠ j) : (l.set i a).getI j = l.getI j := by
  by_cases hj : j < l.length
  · rw [List.getI_eq_getElem _ (by simpa using hj),
      List.getI_eq_getElem _ hj]
    exact List.getElem_set_ne hne _
  · rw [List.getI_eq_default _ (by simp; omega), List.getI_eq_default _ (by omega)]

theorem interpSpecAt_isSome (arr : List GpxPoint) (i : ℕ) :
    (interpSpecAt arr i).ele.isSome = true := by
  unfold interpSpecAt
  by_cases h : (arr.getI i).ele.isSome
  · simp [h]
  · simp [h]

theorem interpolateElevationSpec_eq_map (arr : List GpxPoint) :
    interpolateElevationSpec arr =
      (List.range arr.length).map (interpSpecAt arr) := by
  unfold interpolateElevationSpec interpSpecAt
  rfl

/-- Core step: at a null index k, the interpolation value computed against
the partially filled array (prefix already at specification values, suffix
untouched) equals the value computed against the original array. -/
theorem interpPointVal_step (arr c : List GpxPoint) (k : ℕ)
    (hlen : c.length = arr.length)
    (hk : k < arr.length)
    (hknull : (arr.getI k).ele.isSome = false)
    (hpre : ∀ j, j < k → c.getI j = interpSpecAt arr j)
    (hsuffix : ∀ j, k ≤ j → c.getI j = arr.getI j) :
    interpPointVal c k = interpPointVal arr k := by
  have hNeq : nextNonNull c k = nextNonNull arr k := by
    unfold nextNonNull
    rw [hlen]
    exact nextNonNullAux_congr c arr hlen (k + 1)
      (fun j hj => hsuffix j (by omega)) _ (k + 1) le_rfl
  have hNvals : ∀ m, nextNonNull arr k = some m → c.getI m = arr.getI m :=
    fun m hm => hsuffix m (le_of_lt (nextNonNull_spec arr k m hm).1)
  cases k with
  | zero =>
    cases hN : nextNonNull arr 0 with
    | none => simp [interpPointVal, prevNonNull, hNeq, hN]
    | some m =>
      have hcm := hNvals m hN
      simp [interpPointVal, prevNonNull, hNeq, hN, hcm]
  | succ k0 =>
    have hc_prev_some : (c.getI k0).ele.isSome = true := by
      rw [hpre k0 (Nat.lt_succ_self k0)]
      exact interpSpecAt_isSome arr k0
    have hPc : prevNonNull c (k0 + 1) = some k0 := by
      simp [prevNonNull, hc_prev_some]
    by_cases hpk : (arr.getI k0).ele.isSome
    · have hPa : prevNonNull arr (k0 + 1) = some k0 := by
        simp [prevNonNull, hpk]
      have hck0 : c.getI k0 = arr.getI k0 := by
        rw [hpre k0 (Nat.lt_succ_self k0)]
        simp [interpSpecAt, hpk]
      cases hN : nextNonNull arr (k0 + 1) with
      | none => simp [interpPointVal, hPc, hPa, hNeq, hN, hck0]
      | some m =>
        have hcm := hNvals m hN
        simp [interpPointVal, hPc, hPa, hNeq, hN, hcm, hck0]
    · have hPa : prevNonNull arr (k0 + 1) = prevNonNull arr k0 := by
        simp [prevNonNull, hpk]
      have hNk0 : nextNonNull arr k0 = nextNonNull arr (k0 + 1) :=
        nextNonNull_skip arr k0 (by simpa using hknull)
      have hck0 : c.getI k0 =
          { arr.getI k0 with ele := some (interpPointVal arr k0) } := by
        rw [hpre k0 (Nat.lt_succ_self k0)]
        simp [interpSpecAt, hpk]
      cases hP2 : prevNonNull arr k0 with
      | none =>
        cases hN : nextNonNull arr (k0 + 1) with
        | none =>
          have hNk0m : nextNonNull arr k0 = none := by rw [hNk0, hN]
          have hv : interpPointVal arr k0 = 0 := by
            simp [interpPointVal, hP2, hNk0m]
          simp [interpPointVal, hPc, hPa, hP2, hNk0m, hNeq, hN, hck0, hv]
        | some m =>
          have hNk0m : nextNonNull arr k0 = some m := by rw [hNk0, hN]
          have hv : interpPointVal arr k0 = (arr.getI m).ele.getD 0 := by
            simp [interpPointVal, hP2, hNk0m]
          have hcm := hNvals m hN
          simp [interpPointVal, hPc, hPa, hP2, hNk0m, hNeq, hN, hck0, hv, hcm]
      | some p =>
        obtain ⟨hplt, hpsome⟩ := prevNonNull_spec arr k0 p hP2
        cases hN : nextNonNull arr (k0 + 1) with
        | none =>
          have hNk0m : nextNonNull arr k0 = none := by rw [hNk0, hN]
          have hv : interpPointVal arr k0 = (arr.getI p).ele.getD 0 := by
            simp [interpPointVal, hP2, hNk0m]
          simp [interpPointVal, hPc, hPa, hP2, hNk0m, hNeq, hN, hck0, hv]
        | some m =>
          obtain ⟨hmgt, hmlen, hmsome⟩ := nextNonNull_spec arr (k0 + 1) m hN
          have hNk0m : nextNonNull arr k0 = some m := by rw [hNk0, hN]
          have hcm := hNvals m hN
          have hv : interpPointVal arr k0 =
              (arr.getI p).ele.getD 0 +
                ((arr.getI m).ele.getD 0 - (arr.getI p).ele.getD 0) *
                  (((k0 : ℚ) - (p : ℚ)) / ((m : ℚ) - (p : ℚ))) := by
            simp [interpPointVal, hP2, hNk0m]
          simp only [interpPointVal, hPc, hPa, hP2, hNk0m, hNeq, hN, hck0, hcm]
          have hMK : ((m : ℚ)) - ((k0 : ℚ)) ≠ 0 := by
            have : (k0 : ℚ) < (m : ℚ) := by exact_mod_cast (by omega : k0 < m)
            exact sub_ne_zero.mpr (ne_of_gt this)
          have hMP : ((m : ℚ)) - ((p : ℚ)) ≠ 0 := by
            have : (p : ℚ) < (m : ℚ) := by exact_mod_cast (by omega : p < m)
            exact sub_ne_zero.mpr (ne_of_gt this)
          have hMK1 : ((m : ℚ)) - ((k0 : ℚ) + 1) ≠ 0 ∨ True := Or.inr trivial
          push_cast
          field_simp
          ring

/-- Invariant of the interpolateElevation loop: after the first k iterations
the prefix holds the specification values and the rest of the array is
untouched. -/
theorem interpFold_invariant (arr : List GpxPoint) :
    ∀ k, k ≤ arr.length →
      ((List.range k).foldl interpStep arr).length = arr.length ∧
      (∀ j, j < k →
        ((List.range k).foldl interpStep arr).getI j = interpSpecAt arr j) ∧
      (∀ j, k ≤ j →
        ((List.range k).foldl interpStep arr).getI j = arr.getI j)
  | 0, _ => ⟨by simp, fun j hj => absurd hj (by omega), fun j _ => by simp⟩
  | k + 1, hk => by
    obtain ⟨ha, hb, hc⟩ := interpFold_invariant arr k (by omega)
    have hstep : (List.range (k + 1)).foldl interpStep arr =
        interpStep ((List.range k).foldl interpStep arr) k := by
      rw [List.range_succ, List.foldl_append]
      simp
    set c := (List.range k).foldl interpStep arr with hcdef
    have hck : c.getI k = arr.getI k := hc k le_rfl
    rw [hstep]
    by_cases hsome : (arr.getI k).ele.isSome
    · have hnoop : interpStep c k = c := by
        unfold interpStep
        rw [hck, if_pos hsome]
      rw [hnoop]
      refine ⟨ha, ?_, ?_⟩
      · intro j hj
        rcases Nat.lt_or_ge j k with hlt | hge
        · exact hb j hlt
        · have hjk : j = k := by omega
          subst hjk
          rw [hck]
          unfold interpSpecAt
          rw [if_pos hsome]
      · intro j hj
        exact hc j (by omega)
    · have hval : interpPointVal c k = interpPointVal arr k :=
        interpPointVal_step arr c k ha (by omega)
          (by simpa using hsome) hb hc
      have hset : interpStep c k =
          c.set k { c.getI k with ele := some (interpPointVal c k) } := by
        unfold interpStep
        rw [hck, if_neg hsome]
      rw [hset]
      refine ⟨by simp [ha], ?_, ?_⟩
      · intro j hj
        rcases Nat.lt_or_ge j k with hlt | hge
        · rw [getI_set_ne _ _ _ _ (by omega)]
          exact hb j hlt
        · have hjk : j = k := by omega
          subst hjk
          rw [getI_set_self _ _ _ (by omega)]
          rw [hck, hval]
          unfold interpSpecAt
          rw [if_neg hsome]
      · intro j hj
        rw [getI_set_ne _ _ _ _ (by omega)]
        exact hc j (by omega)

theorem interpolateElevation_eq_spec (arr : List GpxPoint) :
    interpolateElevation arr = interpolateElevationSpec arr := by
  obtain ⟨ha, hb, _⟩ := interpFold_invariant arr arr.length le_rfl
  rw [interpolateElevationSpec_eq_map]
  have hlen1 : (interpolateElevation arr).length = arr.length := ha
  apply List.ext_getElem
  · rw [hlen1]
    simp
  · intro i h1 h2
    have hi : i < arr.length := by
      simpa using h2
    have hgi : (interpolateElevation arr).getI i = interpSpecAt arr i := hb i hi
    rw [List.getI_eq_getElem _ h1] at hgi
    rw [hgi]
    simp

/-- C7.  After the source chain succeeds, interpolateElevation fills every
still-null elevation by linear interpolation between the nearest resolved
neighbours of the incoming array, copying the one resolved side at a
boundary and defaulting to 0 when neither side is resolved, and leaves
resolved points unchanged (the sequential in-place loop of the source
computes exactly this specification); in particular the elevation profile
[100, null, null, null, 200] becomes [100, 125, 150, 175, 200]. -/
theorem interpolateElevation_correct :
    (∀ arr : List GpxPoint,
      interpolateElevation arr = interpolateElevationSpec arr) ∧
    interpolateElevation
        [GpxPoint.mk 0 0 (some 100), GpxPoint.mk 0 0 none, GpxPoint.mk 0 0 none,
          GpxPoint.mk 0 0 none, GpxPoint.mk 0 0 (some 200)] =
      [GpxPoint.mk 0 0 (some 100), GpxPoint.mk 0 0 (some 125),
        GpxPoint.mk 0 0 (some 150), GpxPoint.mk 0 0 (some 175),
        GpxPoint.mk 0 0 (some 200)] :=
  ⟨interpolateElevation_eq_spec, by
    norm_num [interpolateElevation, interpStep, interpPointVal, prevNonNull,
      nextNonNull, nextNonNullAux, List.getI, List.range_succ]⟩

/-!  C8: the point-by-point last-resort source.  -/

theorem everyNth3_shift (l : List ℕ) :
    ∀ n, ((List.enumFrom (n + 3) l).filter (fun p => p.1 % 3 == 0)).map (·.2) =
      ((List.enumFrom n l).filter (fun p => p.1 % 3 == 0)).map (·.2) := by
  induction l with
  | nil => intro n; simp
  | cons a t ih =>
    intro n
    simp only [List.enumFrom_cons]
    have hmod : (n + 3) % 3 = n % 3 := by omega
    rw [List.filter_cons, List.filter_cons]
    have hshift : n + 3 + 1 = (n + 1) + 3 := by omega
    by_cases h : n % 3 = 0
    · have h2 : ((n + 3) % 3 == 0) = true := by rw [hmod]; simpa using h
      have h3 : ((n % 3 : ℕ) == 0) = true := by simpa using h
      rw [h2, h3]
      simp only [if_pos]
      rw [List.map_cons, List.map_cons, hshift, ih (n + 1)]
    · have h2 : ((n + 3) % 3 == 0) = false := by rw [hmod]; simpa using h
      have h3 : ((n % 3 : ℕ) == 0) = false := by simpa using h
      rw [h2, h3]
      simp only [Bool.false_eq_true, if_false]
      rw [hshift, ih (n + 1)]

theorem everyNth3_cons3 (a b c : ℕ) (r : List ℕ) :
    everyNthByPosition 3 (a :: b :: c :: r) = a :: everyNthByPosition 3 r := by
  unfold everyNthByPosition
  simp only [List.enum]
  simp only [List.enumFrom_cons]
  rw [List.filter_cons, List.filter_cons, List.filter_cons]
  norm_num
  exact everyNth3_shift r 0

theorem everyNth3_getI : ∀ (l : List ℕ) (j : ℕ),
    (everyNthByPosition 3 l).getI j = l.getI (3 * j)
  | [], j => by simp [everyNthByPosition, List.getI_eq_default]
  | [a], 0 => by simp [everyNthByPosition, List.enum, List.enumFrom]
  | [a], j + 1 => by
    simp [everyNthByPosition, List.enum, List.enumFrom]
    rfl
  | [a, b], 0 => by
    simp [everyNthByPosition, List.enum, List.enumFrom]
  | [a, b], j + 1 => by
    simp [everyNthByPosition, List.enum, List.enumFrom]
    rfl
  | a :: b :: c :: r, 0 => by rw [everyNth3_cons3]; rfl
  | a :: b :: c :: r, j + 1 => by
    rw [everyNth3_cons3]
    have h1 : (a :: everyNthByPosition 3 r).getI (j + 1) =
        (everyNthByPosition 3 r).getI j := by
      simp [List.getI]
    rw [h1, everyNth3_getI r j]
    have h2 : 3 * (j + 1) = (3 * j) + 1 + 1 + 1 := by omega
    rw [h2]
    simp [List.getI]

theorem everyNth3_length : ∀ (l : List ℕ),
    (everyNthByPosition 3 l).length = (l.length + 2) / 3
  | [] => by simp [everyNthByPosition]
  | [a] => by simp [everyNthByPosition, List.enum, List.enumFrom]
  | [a, b] => by simp [everyNthByPosition, List.enum, List.enumFrom]
  | a :: b :: c :: r => by
    rw [everyNth3_cons3]
    simp only [List.length_cons]
    rw [everyNth3_length r]
    omega

/-- C8 counterexample.  The point-by-point source receives the full sampled
index list and thins it by itself: on the sample [0,1,2,3,4,5] it operates on
[0,3] (positions 0 and 3 of the sample), not on [0] (every 3rd of the
every-2nd reduction [0,2,4] used by the previous source), so the claimed
sample set is wrong. -/
theorem pointByPoint_reduced_claim_counterexample :
    pointByPointReducedIndices [0, 1, 2, 3, 4, 5] ≠
      pointByPointClaimIndices [0, 1, 2, 3, 4, 5] ∧
    pointByPointReducedIndices [0, 1, 2, 3, 4, 5] = [0, 3] ∧
    pointByPointClaimIndices [0, 1, 2, 3, 4, 5] = [0] := by
  refine ⟨?_, by decide, by decide⟩
  decide

/-- C8 amended.  The point-by-point remote source operates on every 3rd
point, by position, of the full sampled set passed by fetchElevationData
(element j of its reduced sample is sampled element 3 j, and its size is
ceil of a third of the sample size), and it reports success exactly when the
number of successfully answered points reaches min(10, 20 percent of its own
reduced sample). -/
theorem tryFetchPointByPoint_amended (tp : List GpxPoint) (s : List ℕ)
    (respond : ℕ → Option ℚ) :
    (pointByPointReducedIndices s).length = (s.length + 2) / 3 ∧
    (∀ j : ℕ, (pointByPointReducedIndices s).getI j = s.getI (3 * j)) ∧
    ((tryFetchPointByPoint tp s respond).2 = true ↔
      ((pointByPointReducedIndices s).countP
          (fun idx => (respond idx).isSome) : ℚ) ≥
        min 10 (((pointByPointReducedIndices s).length : ℚ) * (2/10))) := by
  refine ⟨everyNth3_length s, fun j => everyNth3_getI s j, ?_⟩
  unfold tryFetchPointByPoint
  simp only [decide_eq_true_iff]

/-!  C1: elevation resolution before route construction.  -/

/-- C1 counterexample.  On a GPX file whose first point has elevation 5 and
whose second has no ele element, hasElevation is true, fetchElevationData is
skipped, and the very list containing the null elevation is what
processRouteData receives: a null elevation reaches the route processor. -/
theorem parseGPX_null_reaches_processor_counterexample :
    parseGPXResolvedPoints mixedElevationTrack mixedElevationTrack false =
      some mixedElevationTrack ∧
    GpxPoint.mk 0 0 none ∈ mixedElevationTrack ∧
    (GpxPoint.mk 0 0 none).ele = none := by
  refine ⟨by decide, by decide, rfl⟩

/-- C1 amended.  Elevation resolution runs, and completes with every point
elevation non-null, before the route is constructed exactly when no parsed
point carries a non-null, non-zero elevation (hasElevation false); in that
case the list reaching processRouteData is the fetchElevationData result, in
which every elevation is filled (by the sources plus interpolation on
success, or by the flat 0 profile on failure).  When some points carry
non-zero elevation and others are null, resolution is skipped and nulls
reach the route processor (see the counterexample). -/
theorem parseGPX_elevation_resolution_amended (tp after : List GpxPoint)
    (success : Bool) (hne : tp ≠ []) (hnoele : hasElevationFlag tp = false) :
    parseGPXResolvedPoints tp after success =
      some (fetchElevationDataResult after success) ∧
    ∀ p ∈ fetchElevationDataResult after success, p.ele ≠ none := by
  constructor
  · unfold parseGPXResolvedPoints
    rw [if_neg (by simpa using hne), hnoele]
    simp
  · intro p hp
    unfold fetchElevationDataResult at hp
    cases success with
    | true =>
      simp only [if_pos] at hp
      rw [interpolateElevation_eq_spec, interpolateElevationSpec_eq_map] at hp
      obtain ⟨i, hi, rfl⟩ := List.mem_map.mp hp
      have := interpSpecAt_isSome after i
      simpa [Option.isSome_iff_ne_none] using this
    | false =>
      simp only [Bool.false_eq_true, if_false] at hp
      unfold flatProfileFill at hp
      obtain ⟨q, hq, rfl⟩ := List.mem_map.mp hp
      by_cases hqe : q.ele = none
      · simp [hqe]
      · simp [hqe]

/-- Witness for C1 amended: a single all-null point with a failing source
chain resolves to the flat profile before processing. -/
theorem parseGPX_elevation_resolution_amended_witness :
    ([GpxPoint.mk 0 0 none] ≠ ([] : List GpxPoint)) ∧
    hasElevationFlag [GpxPoint.mk 0 0 none] = false ∧
    (parseGPXResolvedPoints [GpxPoint.mk 0 0 none] [GpxPoint.mk 0 0 none] false =
      some (fetchElevationDataResult [GpxPoint.mk 0 0 none] false) ∧
    ∀ p ∈ fetchElevationDataResult [GpxPoint.mk 0 0 none] false, p.ele ≠ none) :=
  ⟨by decide, by decide,
    parseGPX_elevation_resolution_amended [GpxPoint.mk 0 0 none]
      [GpxPoint.mk 0 0 none] false (by decide) (by decide)⟩

theorem haversineDistanceReal_symm (lat1 lon1 lat2 lon2 : ℝ) :
    haversineDistanceReal lat1 lon1 lat2 lon2 =
      haversineDistanceReal lat2 lon2 lat1 lon1 := by
  simp only [haversineDistanceReal, toRadReal]
  have hlat : (lat1 - lat2) * (Real.pi / 180) / 2 =
      -((lat2 - lat1) * (Real.pi / 180) / 2) := by ring
  have hlon : (lon1 - lon2) * (Real.pi / 180) / 2 =
      -((lon2 - lon1) * (Real.pi / 180) / 2) := by ring
  have ha :
      Real.sin ((lat2 - lat1) * (Real.pi / 180) / 2) *
          Real.sin ((lat2 - lat1) * (Real.pi / 180) / 2) +
        Real.cos (lat1 * (Real.pi / 180)) * Real.cos (lat2 * (Real.pi / 180)) *
          Real.sin ((lon2 - lon1) * (Real.pi / 180) / 2) *
          Real.sin ((lon2 - lon1) * (Real.pi / 180) / 2) =
      Real.sin ((lat1 - lat2) * (Real.pi / 180) / 2) *
          Real.sin ((lat1 - lat2) * (Real.pi / 180) / 2) +
        Real.cos (lat2 * (Real.pi / 180)) * Real.cos (lat1 * (Real.pi / 180)) *
          Real.sin ((lon1 - lon2) * (Real.pi / 180) / 2) *
          Real.sin ((lon1 - lon2) * (Real.pi / 180) / 2) := by
    rw [hlat, hlon, Real.sin_neg, Real.sin_neg]
    ring
  rw [ha]
